import Mathlib

/-!
Shallow embedding of the wordle-game puzzle engine (src/app.py) and proofs
about its guess scoring, hard mode, session state machine, share text,
daily-word selection and outcome logging.
-/

set_option maxHeartbeats 1000000

namespace WordleGame

/-- Verdict colors: src/app.py represents a verdict entry as one of the
strings green, yellow, gray (lines 672, 682, 692). -/
inductive Color where
  | green
  | yellow
  | gray
deriving DecidableEq

/-- The string the code uses for each color (as serialized into the JSON
result array). -/
def colorStr : Color → List Char
  | .green => "green".toList
  | .yellow => "yellow".toList
  | .gray => "gray".toList

def isUpperChar (c : Char) : Bool := 'A' ≤ c && c ≤ 'Z'

/-- ASCII model of Python str.upper applied to one character. -/
def toUpperChar (c : Char) : Char :=
  if 'a' ≤ c && c ≤ 'z' then Char.ofNat (c.toNat - 32) else c

/-- Number of occurrences of character c in w; models the frequency maps
target_counts / guess_letters built at src/app.py:673-675 and 664-666. -/
def countOcc (w : List Char) (c : Char) : Nat :=
  (w.filter (fun x => decide (x = c))).length

def countUpper (s : List Char) : Nat := (s.filter isUpperChar).length

/-- w occurs (contiguously) inside s. -/
def occursIn (w s : List Char) : Prop := ∃ a b, s = a ++ w ++ b

/-- guess_counts after the first pass of the evaluator: the number of
positions anywhere in the guess whose letter is c and matches the target
positionally (src/app.py:680-683). -/
def greensOf (guess target : List Char) (c : Char) : Nat :=
  ((guess.zip target).filter (fun p => decide (p.1 = p.2) && decide (p.1 = c))).length

/-- Increment of the guess_counts entry for g (src/app.py:693). -/
def bump (gc : Char → Nat) (g : Char) : Char → Nat :=
  fun c => if c = g then gc c + 1 else gc c

/-- Second pass of the evaluator (src/app.py:689-693), fused with the green
marks of the first pass: positions with g = t stay green; a remaining
(gray) position turns yellow when g occurs in the target and the running
guess_counts entry for g is below target_counts, incrementing guess_counts.
The accumulator gc starts from the first-pass green counts. -/
def secondPass (target : List Char) : List (Char × Char) → (Char → Nat) → List Color
  | [], _ => []
  | (g, t) :: rest, gc =>
    if g = t then Color.green :: secondPass target rest gc
    else if target.contains g ∧ gc g < countOcc target g then
      Color.yellow :: secondPass target rest (bump gc g)
    else Color.gray :: secondPass target rest gc

/-- The guess evaluator of src/app.py:671-694: result starts as 5 grays;
pass 1 marks greens (counting them in guess_counts); if not all green,
pass 2 walks left to right turning grays into yellows while the letter
budget of the target remains. Positions beyond the zipped length stay at
their initial gray. -/
def evaluateGuess (guess target : List Char) : List Color :=
  if (guess.zip target).all (fun p => decide (p.1 = p.2)) then
    ((guess.zip target).map (fun _ => Color.green)) ++
      List.replicate (5 - (guess.zip target).length) Color.gray
  else
    (secondPass target (guess.zip target) (greensOf guess target)) ++
      List.replicate (5 - (guess.zip target).length) Color.gray

/-- Number of indices j < i at which the output verdict is yellow and the
pair letter is c (pairs-based form, used in the induction). -/
def yellowsBeforeP (pairs : List (Char × Char)) (r : List Color) (i : Nat) (c : Char) : Nat :=
  (((pairs.zip r).take i).filter
    (fun q => decide (q.1.1 = c) && decide (q.2 = Color.yellow))).length

/-- Number of indices j < i at which the verdict is yellow and the guess
letter is c. -/
def yellowsBefore (guess : List Char) (r : List Color) (i : Nat) (c : Char) : Nat :=
  (((guess.zip r).take i).filter
    (fun q => decide (q.1 = c) && decide (q.2 = Color.yellow))).length

/-- Lookup in a Python dict modelled as an insertion-ordered association
list, with default 0 (dict.get(letter, 0)). -/
def dictGet (d : List (Char × Nat)) (c : Char) : Nat :=
  match d.find? (fun p => decide (p.1 = c)) with
  | some p => p.2
  | none => 0

/-- d[letter] = d.get(letter, 0) + 1 on an insertion-ordered dict: update
in place when the key exists, append a fresh entry otherwise. -/
def dictIncr (d : List (Char × Nat)) (c : Char) : List (Char × Nat) :=
  if d.any (fun p => decide (p.1 = c)) then
    d.map (fun p => if p.1 = c then (p.1, p.2 + 1) else p)
  else d ++ [(c, 1)]

/-- The guess_letters dict of src/app.py:664-666. -/
def letterCounts (w : List Char) : List (Char × Nat) := w.foldl dictIncr []

def isGreenOrYellow (col : Color) : Bool :=
  decide (col = Color.green) || decide (col = Color.yellow)

/-- One entry of the session's guess history: the guessed word and its
verdict sequence (the dict appended at src/app.py:696). -/
structure GuessRecord where
  guess : List Char
  result : List Color
deriving DecidableEq

def recordPairs (r : GuessRecord) : List (Char × Color) := r.guess.zip r.result

/-- One step of building known_letters (src/app.py:660-663). -/
def addKnown (d : List (Char × Nat)) (p : Char × Color) : List (Char × Nat) :=
  if isGreenOrYellow p.2 then dictIncr d p.1 else d

/-- The known_letters dict of src/app.py:659-663: every green or yellow
verdict across all prior records increments the letter's required count. -/
def knownLetters (hist : List GuessRecord) : List (Char × Nat) :=
  hist.foldl (fun d r => (recordPairs r).foldl addKnown d) []

/-- The hard-mode loop of src/app.py:667-669: walk known_letters in
insertion order and return the first letter whose required count exceeds
its count in the candidate guess (none when the guess is accepted). -/
def hardModeViolation (hist : List GuessRecord) (guess : List Char) : Option Char :=
  ((knownLetters hist).find?
    (fun p => decide (dictGet (letterCounts guess) p.1 < p.2))).map Prod.fst

/-- Number of green-or-yellow marks of letter c in one record. -/
def greenYellowCount (l : List (Char × Color)) (c : Char) : Nat :=
  (l.filter (fun p => decide (p.1 = c) && isGreenOrYellow p.2)).length

/-- Total green-or-yellow marks of letter c summed over the history. -/
def totalGreenYellow (hist : List GuessRecord) (c : Char) : Nat :=
  (hist.map (fun r => greenYellowCount (recordPairs r) c)).sum

/-- The per-player Flask session fields touched by the puzzle engine
(src/app.py: session keys guesses, game_over, hard_mode,
last_played_date, share_text). -/
structure Session where
  guesses : List GuessRecord
  game_over : Bool
  hard_mode : Bool
  last_played_date : Option (List Char)
  share_text : Option (List Char)
deriving DecidableEq

/-- A row of the game_logs outcome table as written at src/app.py:739-740
(identity and timestamp fields omitted: they are request metadata). -/
structure OutcomeRecord where
  win : Nat
  guesses : Nat
deriving DecidableEq

/-- The JSON body returned by a successful POST /guess
(src/app.py:767-773). -/
structure GuessResponse where
  guess : List Char
  result : List Color
  game_over : Bool
  message : Option (List Char)
  share_text : Option (List Char)
deriving DecidableEq

/-- Outcome of one POST /guess request: either an error body (with the
unchanged session) or a success body with the new session state and the
list of outcome rows written to game_logs during the request. -/
inductive GuessOutcome where
  | err (msg : List Char) (s : Session)
  | ok (resp : GuessResponse) (s : Session) (log : List OutcomeRecord)
deriving DecidableEq

def outcomeGameOver : GuessOutcome → Bool
  | .ok r _ _ => r.game_over
  | .err _ _ => false

def outcomeLog : GuessOutcome → Option (List OutcomeRecord)
  | .ok _ _ log => some log
  | .err _ _ => none

def guestType : List Char := "Guest".toList

def dbErrorMsg : List Char := "Database error. Please try again later.".toList

def alreadyPlayedMsg : List Char :=
  "You have already played today. Use \x27Clear Session\x27 to test again!".toList

def gameOverFinishedMsg : List Char := "Game is over. Start a new game.".toList

def invalidWordMsg : List Char :=
  "Invalid word. Must be a 5-letter word from the selected list.".toList

def hardModeMsg (c : Char) : List Char :=
  "Hard Mode: Must use all known letters (".toList ++ [c] ++ ").".toList

def cannotChangeMsg : List Char :=
  "Cannot change settings. You have already played today.".toList

def winMsg (n : Nat) : List Char :=
  "Congratulations! You solved it in ".toList ++ (Nat.repr n).toList ++ " guesses!".toList

def loseMsg (target : List Char) : List Char :=
  "Game over! The word was ".toList ++ target ++ ".".toList

def glyphOf : Color → Char
  | .green => '🟩'
  | .yellow => '🟨'
  | .gray => '⬜'

/-- One line of the shareable string: the glyphs of one record's verdicts
followed by a newline (src/app.py:760-763). -/
def glyphLine (g : GuessRecord) : List Char := g.result.map glyphOf ++ ['\n']

/-- The header line of the shareable string (without its newline):
Wurdle, the date, and the guesses-used/6 ratio (src/app.py:759). -/
def shareHeader (today : List Char) (n : Nat) : List Char :=
  "Wurdle ".toList ++ today ++ [' '] ++ (Nat.repr n).toList ++ "/6".toList

/-- The shareable string of src/app.py:758-763: header line first, then
one glyph line per guess in submission order, each line newline-terminated. -/
def shareText (today : List Char) (gs : List GuessRecord) : List Char :=
  shareHeader today gs.length ++ "\n".toList ++ (gs.map glyphLine).flatten

/-- The POST /guess route (src/app.py:609-773) from the guard checks on.
dbOk models whether the user-bootstrap database access at lines 622-638
succeeds; user_type is the type fetched for the player; target is the
word returned by get_daily_word. -/
def guessRoute (dbOk : Bool) (today : List Char) (availableWords : List (List Char))
    (user_type : List Char) (target : List Char) (s : Session) (guessRaw : List Char) :
    GuessOutcome :=
  if dbOk = false then .err dbErrorMsg s
  else if s.last_played_date = some today ∧ s.game_over = true then .err alreadyPlayedMsg s
  else if s.game_over = true then .err gameOverFinishedMsg s
  else
    let guess := guessRaw.map toUpperChar
    if guess.length ≠ 5 ∨ guess ∉ availableWords then .err invalidWordMsg s
    else
      match (if s.hard_mode then hardModeViolation s.guesses guess else none) with
      | some letter => .err (hardModeMsg letter) s
      | none =>
        let result := evaluateGuess guess target
        let guesses2 := s.guesses ++ [{ guess := guess, result := result }]
        if guess = target then
          let st := shareText today guesses2
          .ok { guess := guess, result := result, game_over := true,
                message := some (winMsg guesses2.length), share_text := some st }
            { s with guesses := guesses2, game_over := true,
                     last_played_date := some today, share_text := some st }
            (if user_type ≠ guestType then [{ win := 1, guesses := guesses2.length }] else [])
        else if 6 ≤ guesses2.length then
          let st := shareText today guesses2
          .ok { guess := guess, result := result, game_over := true,
                message := some (loseMsg target), share_text := some st }
            { s with guesses := guesses2, game_over := true,
                     last_played_date := some today, share_text := some st }
            (if user_type ≠ guestType then [{ win := 0, guesses := guesses2.length }] else [])
        else
          let st := shareText today guesses2
          .ok { guess := guess, result := result, game_over := false,
                message := none, share_text := some st }
            { s with guesses := guesses2, share_text := some st } []

inductive ToggleOutcome where
  | err (msg : List Char) (s : Session)
  | ok (s : Session)
deriving DecidableEq

/-- The POST /toggle_hard_mode route (src/app.py:775-781): rejected when
the session's last_played_date equals today, otherwise the flag flips. -/
def toggle_hard_mode (today : List Char) (s : Session) : ToggleOutcome :=
  if s.last_played_date = some today then .err cannotChangeMsg s
  else .ok { s with hard_mode := !s.hard_mode }

/-- A row of the daily_word table (src/app.py:83-90), primary key
(date, word_list). -/
structure DailyWordRow where
  date : List Char
  word_list : List Char
  word : List Char
deriving DecidableEq

/-- SELECT word FROM daily_word WHERE date = d AND word_list = l
(src/app.py:151). -/
def dwLookup (db : List DailyWordRow) (d l : List Char) : Option (List Char) :=
  (db.find? (fun r => decide (r.date = d) && decide (r.word_list = l))).map (fun r => r.word)

/-- INSERT INTO daily_word (src/app.py:159): fails (unique violation on
the primary key) when a row for (d, l) already exists. -/
def dwInsert (db : List DailyWordRow) (d l w : List Char) : Option (List DailyWordRow) :=
  if db.any (fun r => decide (r.date = d) && decide (r.word_list = l)) then none
  else some (db ++ [{ date := d, word_list := l, word := w }])

/-- get_daily_word (src/app.py:143-168) with the SELECT and the INSERT
possibly executing against different database states (dbAtSelect,
dbAtInsert), which is exactly what happens when two first requests race:
on a successful lookup return the pinned word; otherwise insert the
pseudo-random choice rnd; if the insert hits the unique violation, the
psycopg.Error handler at lines 163-165 returns a fresh random fallback. -/
def get_daily_word_at (dbAtSelect dbAtInsert : List DailyWordRow)
    (today word_list rnd fallback : List Char) : List Char × List DailyWordRow :=
  match dwLookup dbAtSelect today word_list with
  | some w => (w, dbAtInsert)
  | none =>
    match dwInsert dbAtInsert today word_list rnd with
    | some db2 => (rnd, db2)
    | none => (fallback, dbAtInsert)

/-- get_daily_word under sequential (non-racing) execution: SELECT and
INSERT see the same database state. -/
def get_daily_word (db : List DailyWordRow) (today word_list rnd fallback : List Char) :
    List Char × List DailyWordRow :=
  get_daily_word_at db db today word_list rnd fallback

/-- Effect of init_db (src/app.py:82-90) on the daily_word table: the
table is dropped and recreated empty on every startup, regardless of its
contents. -/
def init_db_daily_word (_db : List DailyWordRow) : List DailyWordRow := []

/-- Modelled from the spec: the share-string layout claimed in the spec
(one glyph line per guess, in submission order, FOLLOWED by the header
line identifying the date and the guesses-used ratio). Used only to
compare against the shareText the code builds. -/
def claimShareText (today : List Char) (gs : List GuessRecord) : List Char :=
  (gs.map glyphLine).flatten ++ shareHeader today gs.length ++ "\n".toList

/-- A concrete date, used in concrete evaluations. -/
def sampleToday : List Char := "2026-10-12".toList

/-- A fresh session as the index route initializes it. -/
def sampleSession0 : Session :=
  { guesses := [], game_over := false, hard_mode := false,
    last_played_date := none, share_text := none }

/-- The record appended by a correct first guess CRANE on secret CRANE. -/
def sampleRec : GuessRecord :=
  { guess := "CRANE".toList, result := evaluateGuess ("CRANE".toList) ("CRANE".toList) }

/-- The response produced by that winning guess. -/
def sampleWinResp : GuessResponse :=
  { guess := "CRANE".toList, result := evaluateGuess ("CRANE".toList) ("CRANE".toList),
    game_over := true, message := some (winMsg 1),
    share_text := some (shareText sampleToday [sampleRec]) }

/-- The session state after that winning guess. -/
def sampleWinSession : Session :=
  { guesses := [sampleRec], game_over := true, hard_mode := false,
    last_played_date := some sampleToday,
    share_text := some (shareText sampleToday [sampleRec]) }

/-! ### Lemmas about the guess evaluator -/

lemma countOcc_pos_iff {w : List Char} {c : Char} : 0 < countOcc w c ↔ c ∈ w := by
  unfold countOcc
  rw [← List.countP_eq_length_filter, List.countP_pos_iff]
  constructor
  · rintro ⟨a, ha, hp⟩
    simp only [decide_eq_true_eq] at hp
    exact hp ▸ ha
  · intro h
    exact ⟨c, h, by simp⟩

lemma secondPass_length (target : List Char) :
    ∀ (pairs : List (Char × Char)) (gc : Char → Nat),
      (secondPass target pairs gc).length = pairs.length := by
  intro pairs
  induction pairs with
  | nil => intro gc; rfl
  | cons p rest ih =>
    intro gc
    obtain ⟨g, t⟩ := p
    simp only [secondPass]
    split
    · simp [ih]
    · split <;> simp [ih]

lemma yellowsBeforeP_zero (pairs : List (Char × Char)) (r : List Color) (c : Char) :
    yellowsBeforeP pairs r 0 c = 0 := by
  simp [yellowsBeforeP]

lemma yellowsBeforeP_cons_succ (p : Char × Char) (pairs : List (Char × Char))
    (c0 : Color) (r : List Color) (i : Nat) (c : Char) :
    yellowsBeforeP (p :: pairs) (c0 :: r) (i + 1) c =
      (if decide (p.1 = c) && decide (c0 = Color.yellow) then 1 else 0) +
        yellowsBeforeP pairs r i c := by
  simp only [yellowsBeforeP, List.zip_cons_cons, List.take_succ_cons, List.filter_cons]
  split <;> simp [Nat.add_comm]

lemma secondPass_getD (target : List Char) :
    ∀ (pairs : List (Char × Char)) (gc : Char → Nat) (i : Nat), i < pairs.length →
      (((secondPass target pairs gc).getD i Color.gray = Color.green) ↔
        (pairs.getD i ('?', '?')).1 = (pairs.getD i ('?', '?')).2) ∧
      ((pairs.getD i ('?', '?')).1 ≠ (pairs.getD i ('?', '?')).2 →
        (((secondPass target pairs gc).getD i Color.gray = Color.yellow) ↔
          gc (pairs.getD i ('?', '?')).1 +
            yellowsBeforeP pairs (secondPass target pairs gc) i (pairs.getD i ('?', '?')).1
            < countOcc target (pairs.getD i ('?', '?')).1)) := by
  intro pairs
  induction pairs with
  | nil => intro gc i hi; simp at hi
  | cons p rest ih =>
    intro gc i hi
    obtain ⟨g, t⟩ := p
    by_cases hgt : g = t
    · have hsp : secondPass target ((g, t) :: rest) gc =
          Color.green :: secondPass target rest gc := by
        simp only [secondPass]
        rw [if_pos hgt]
      cases i with
      | zero =>
        subst hgt
        simp [hsp]
      | succ i =>
        have hi2 : i < rest.length := by simpa using hi
        have h := ih gc i hi2
        rw [hsp]
        simp only [List.getD_cons_succ]
        refine ⟨h.1, fun hne => ?_⟩
        rw [yellowsBeforeP_cons_succ]
        simpa using h.2 hne
    · by_cases hyc : target.contains g = true ∧ gc g < countOcc target g
      · have hsp : secondPass target ((g, t) :: rest) gc =
            Color.yellow :: secondPass target rest (bump gc g) := by
          simp only [secondPass]
          rw [if_neg hgt, if_pos hyc]
        cases i with
        | zero =>
          rw [hsp]
          simp only [List.getD_cons_zero]
          constructor
          · constructor
            · intro h; cases h
            · intro h; exact absurd h hgt
          · intro _
            rw [yellowsBeforeP_zero]
            simp only [Nat.add_zero]
            exact ⟨fun _ => hyc.2, fun _ => by trivial⟩
        | succ i =>
          have hi2 : i < rest.length := by simpa using hi
          have h := ih (bump gc g) i hi2
          rw [hsp]
          simp only [List.getD_cons_succ]
          refine ⟨h.1, fun hne => ?_⟩
          have h2 := h.2 hne
          rw [yellowsBeforeP_cons_succ]
          set c := (rest.getD i ('?', '?')).1 with hc
          have hind : (if decide (g = c) && decide (Color.yellow = Color.yellow) then 1 else 0) =
              (if c = g then 1 else 0) := by
            by_cases hcg : c = g
            · subst hcg; simp
            · have hgc : ¬(g = c) := fun hx => hcg hx.symm
              simp [hgc, hcg]
          rw [hind]
          have hsum : gc c + ((if c = g then 1 else 0) +
              yellowsBeforeP rest (secondPass target rest (bump gc g)) i c) =
              bump gc g c + yellowsBeforeP rest (secondPass target rest (bump gc g)) i c := by
            unfold bump
            by_cases hcg : c = g <;> simp [hcg] <;> omega
          rw [hsum]
          exact h2
      · have hsp : secondPass target ((g, t) :: rest) gc =
            Color.gray :: secondPass target rest gc := by
          simp only [secondPass]
          rw [if_neg hgt, if_neg hyc]
        cases i with
        | zero =>
          rw [hsp]
          simp only [List.getD_cons_zero]
          constructor
          · constructor
            · intro h; cases h
            · intro h; exact absurd h hgt
          · intro _
            rw [yellowsBeforeP_zero]
            simp only [Nat.add_zero]
            constructor
            · intro h; cases h
            · intro hlt
              exfalso
              apply hyc
              refine ⟨?_, hlt⟩
              have hmem : g ∈ target :=
                countOcc_pos_iff.mp (Nat.lt_of_le_of_lt (Nat.zero_le _) hlt)
              exact List.elem_iff.mpr hmem
        | succ i =>
          have hi2 : i < rest.length := by simpa using hi
          have h := ih gc i hi2
          rw [hsp]
          simp only [List.getD_cons_succ]
          refine ⟨h.1, fun hne => ?_⟩
          rw [yellowsBeforeP_cons_succ]
          simpa using h.2 hne

lemma secondPass_all_green (target : List Char) :
    ∀ (pairs : List (Char × Char)) (gc : Char → Nat),
      pairs.all (fun p => decide (p.1 = p.2)) = true →
      secondPass target pairs gc = pairs.map (fun _ => Color.green) := by
  intro pairs
  induction pairs with
  | nil => intro gc _; rfl
  | cons p rest ih =>
    intro gc hall
    obtain ⟨g, t⟩ := p
    simp only [List.all_cons, Bool.and_eq_true, decide_eq_true_eq] at hall
    simp [secondPass, hall.1, ih gc (by simpa using hall.2)]

lemma evaluateGuess_eq_secondPass (guess target : List Char) :
    evaluateGuess guess target =
      secondPass target (guess.zip target) (greensOf guess target) ++
        List.replicate (5 - (guess.zip target).length) Color.gray := by
  unfold evaluateGuess
  split
  · rename_i h
    rw [secondPass_all_green target _ _ h]
  · rfl

lemma zip_getD (xs ys : List Char) :
    ∀ i, i < xs.length → i < ys.length →
      (xs.zip ys).getD i ('?', '?') = (xs.getD i '?', ys.getD i '?') := by
  induction xs generalizing ys with
  | nil => intro i hi _; simp at hi
  | cons x xs ih =>
    intro i hi hj
    cases ys with
    | nil => simp at hj
    | cons y ys =>
      cases i with
      | zero => simp
      | succ i => simpa using ih ys i (by simpa using hi) (by simpa using hj)

lemma yellowsBefore_bridge (c : Char) :
    ∀ (gl tl : List Char) (rl : List Color) (i : Nat), gl.length ≤ tl.length →
      yellowsBeforeP (gl.zip tl) rl i c = yellowsBefore gl rl i c := by
  intro gl
  induction gl with
  | nil => intro tl rl i _; simp [yellowsBeforeP, yellowsBefore]
  | cons g gl ih =>
    intro tl rl i hle
    cases tl with
    | nil => simp at hle
    | cons t tl =>
      cases rl with
      | nil => simp [yellowsBeforeP, yellowsBefore]
      | cons c0 rl =>
        cases i with
        | zero => simp [yellowsBeforeP, yellowsBefore]
        | succ i =>
          have hle2 : gl.length ≤ tl.length := by simpa using hle
          have htail := ih tl rl i hle2
          simp only [yellowsBeforeP, yellowsBefore, List.zip_cons_cons,
            List.take_succ_cons, List.filter_cons] at htail ⊢
          by_cases hq : (decide (g = c) && decide (c0 = Color.yellow)) = true
          · simp only [hq, if_true, List.length_cons, htail]
          · simp [hq, htail]

/-- C1: for length-5 secret and guess, the evaluator returns 5 verdicts;
position i is green exactly when guess[i] = secret[i]; a non-matching
position is yellow exactly when the occurrences of guess[i] already
consumed — greens of that letter anywhere in the guess plus yellows at
strictly earlier indices — are fewer than the letter's count in the
secret, and gray otherwise (left-to-right tie-breaking is what the
strictly-earlier-yellows count expresses). -/
theorem evaluateGuess_verdict_spec (guess target : List Char)
    (hg : guess.length = 5) (ht : target.length = 5) :
    (evaluateGuess guess target).length = 5 ∧
    ∀ i, i < 5 →
      (((evaluateGuess guess target).getD i Color.gray = Color.green) ↔
        guess.getD i '?' = target.getD i '?') ∧
      (guess.getD i '?' ≠ target.getD i '?' →
        ((((evaluateGuess guess target).getD i Color.gray = Color.yellow) ↔
          greensOf guess target (guess.getD i '?') +
            yellowsBefore guess (evaluateGuess guess target) i (guess.getD i '?')
            < countOcc target (guess.getD i '?')) ∧
         ((evaluateGuess guess target).getD i Color.gray ≠ Color.green →
          (evaluateGuess guess target).getD i Color.gray ≠ Color.yellow →
          (evaluateGuess guess target).getD i Color.gray = Color.gray))) := by
  have hzlen : (guess.zip target).length = 5 := by
    rw [List.length_zip, hg, ht]
    omega
  have he : evaluateGuess guess target =
      secondPass target (guess.zip target) (greensOf guess target) := by
    rw [evaluateGuess_eq_secondPass, hzlen]
    simp
  constructor
  · rw [he, secondPass_length, hzlen]
  · intro i hi
    have hig : i < guess.length := by omega
    have hit : i < target.length := by omega
    have hip : i < (guess.zip target).length := by omega
    have hzg := zip_getD guess target i hig hit
    have h := secondPass_getD target (guess.zip target) (greensOf guess target) i hip
    rw [hzg] at h
    simp only at h
    rw [yellowsBefore_bridge (guess.getD i '?') guess target
      (secondPass target (guess.zip target) (greensOf guess target)) i (by omega)] at h
    rw [he]
    refine ⟨h.1, fun hne => ⟨h.2 hne, ?_⟩⟩
    intro hng hny
    cases hv : (secondPass target (guess.zip target) (greensOf guess target)).getD i Color.gray
    · exact absurd hv hng
    · exact absurd hv hny
    · rfl

/-! ### Lemmas about the hard-mode dictionaries -/

lemma dictGet_nil (c : Char) : dictGet [] c = 0 := rfl

lemma dictGet_cons (k : Char) (v : Nat) (d : List (Char × Nat)) (c : Char) :
    dictGet ((k, v) :: d) c = if k = c then v else dictGet d c := by
  unfold dictGet
  rw [List.find?_cons]
  by_cases hk : k = c
  · simp [hk]
  · simp [hk]

lemma dictGet_map_ne (d : List (Char × Nat)) (x c : Char) (h : ¬c = x) :
    dictGet (d.map (fun p => if p.1 = x then (p.1, p.2 + 1) else p)) c = dictGet d c := by
  induction d with
  | nil => rfl
  | cons p d ih =>
    obtain ⟨k, v⟩ := p
    dsimp only [List.map_cons]
    by_cases hk : k = x
    · have hkc : ¬(k = c) := fun hh => h (hh ▸ hk)
      rw [if_pos hk, dictGet_cons, dictGet_cons, if_neg hkc, if_neg hkc, ih]
    · rw [if_neg hk, dictGet_cons, dictGet_cons, ih]

lemma dictGet_map_self (d : List (Char × Nat)) (x : Char)
    (hany : d.any (fun p => decide (p.1 = x)) = true) :
    dictGet (d.map (fun p => if p.1 = x then (p.1, p.2 + 1) else p)) x = dictGet d x + 1 := by
  induction d with
  | nil => simp at hany
  | cons p d ih =>
    obtain ⟨k, v⟩ := p
    dsimp only [List.map_cons]
    by_cases hk : k = x
    · rw [if_pos hk, dictGet_cons, dictGet_cons, if_pos hk, if_pos hk]
    · rw [if_neg hk, dictGet_cons, dictGet_cons, if_neg hk, if_neg hk]
      apply ih
      simp only [List.any_cons, Bool.or_eq_true, decide_eq_true_eq] at hany
      rcases hany with h | h
      · exact absurd h hk
      · exact h

lemma dictGet_append_single (d : List (Char × Nat)) (x c : Char)
    (hnone : d.any (fun p => decide (p.1 = x)) = false) :
    dictGet (d ++ [(x, 1)]) c = dictGet d c + (if c = x then 1 else 0) := by
  induction d with
  | nil =>
    simp only [List.nil_append]
    rw [dictGet_cons]
    by_cases hcx : c = x
    · subst hcx; simp [dictGet_nil]
    · have hxc : ¬(x = c) := fun hh => hcx hh.symm
      simp [hxc, hcx, dictGet_nil]
  | cons p d ih =>
    obtain ⟨k, v⟩ := p
    rw [List.any_cons] at hnone
    have h1 : ¬(k = x) := by
      intro hh
      rw [hh] at hnone
      simp at hnone
    have h2 : d.any (fun p => decide (p.1 = x)) = false := by
      cases hda : d.any (fun p => decide (p.1 = x))
      · rfl
      · rw [hda] at hnone; simp at hnone
    rw [List.cons_append, dictGet_cons, dictGet_cons]
    by_cases hk : k = c
    · have hcx : ¬(c = x) := fun hh => h1 (hk.trans hh)
      simp [hk, hcx]
    · simp only [hk, if_false]
      exact ih h2

lemma dictGet_dictIncr (d : List (Char × Nat)) (x c : Char) :
    dictGet (dictIncr d x) c = dictGet d c + (if c = x then 1 else 0) := by
  unfold dictIncr
  by_cases hany : d.any (fun p => decide (p.1 = x)) = true
  · rw [if_pos hany]
    by_cases hcx : c = x
    · subst hcx
      rw [dictGet_map_self d c hany]
      simp
    · rw [dictGet_map_ne d x c hcx]
      simp [hcx]
  · rw [if_neg hany]
    have hfalse : d.any (fun p => decide (p.1 = x)) = false := by
      cases hda : d.any (fun p => decide (p.1 = x))
      · rfl
      · exact absurd hda hany
    exact dictGet_append_single d x c hfalse

lemma countOcc_cons (x : Char) (w : List Char) (c : Char) :
    countOcc (x :: w) c = countOcc w c + (if c = x then 1 else 0) := by
  unfold countOcc
  rw [List.filter_cons]
  by_cases hx : x = c
  · subst hx; simp
  · have hcx : ¬(c = x) := fun hh => hx hh.symm
    simp [hx, hcx]

lemma dictGet_foldl_dictIncr (w : List Char) :
    ∀ (d : List (Char × Nat)) (c : Char),
      dictGet (w.foldl dictIncr d) c = dictGet d c + countOcc w c := by
  induction w with
  | nil => intro d c; simp [countOcc]
  | cons x w ih =>
    intro d c
    simp only [List.foldl_cons]
    rw [ih, dictGet_dictIncr, countOcc_cons]
    omega

lemma dictGet_letterCounts (w : List Char) (c : Char) :
    dictGet (letterCounts w) c = countOcc w c := by
  unfold letterCounts
  rw [dictGet_foldl_dictIncr, dictGet_nil]
  omega

lemma greenYellowCount_cons (k : Char) (col : Color) (l : List (Char × Color)) (c : Char) :
    greenYellowCount ((k, col) :: l) c =
      greenYellowCount l c + (if decide (k = c) && isGreenOrYellow col then 1 else 0) := by
  unfold greenYellowCount
  rw [List.filter_cons]
  split <;> simp [Nat.add_comm]

lemma dictGet_foldl_addKnown (l : List (Char × Color)) :
    ∀ (d : List (Char × Nat)) (c : Char),
      dictGet (l.foldl addKnown d) c = dictGet d c + greenYellowCount l c := by
  induction l with
  | nil => intro d c; simp [greenYellowCount]
  | cons p l ih =>
    intro d c
    obtain ⟨k, col⟩ := p
    simp only [List.foldl_cons]
    rw [ih, greenYellowCount_cons]
    unfold addKnown
    by_cases hgy : isGreenOrYellow col = true
    · rw [if_pos hgy, dictGet_dictIncr]
      by_cases hk : k = c
      · simp [hk, hgy]
        omega
      · have hck : ¬(c = k) := fun hh => hk hh.symm
        simp [hk, hck, hgy]
    · simp only [Bool.not_eq_true] at hgy
      simp [hgy]

lemma dictGet_foldl_records (hist : List GuessRecord) :
    ∀ (d : List (Char × Nat)) (c : Char),
      dictGet (hist.foldl (fun d r => (recordPairs r).foldl addKnown d) d) c =
        dictGet d c + totalGreenYellow hist c := by
  induction hist with
  | nil => intro d c; simp [totalGreenYellow]
  | cons r hist ih =>
    intro d c
    simp only [List.foldl_cons]
    rw [ih, dictGet_foldl_addKnown]
    unfold totalGreenYellow
    simp only [List.map_cons, List.sum_cons]
    omega

lemma dictGet_knownLetters (hist : List GuessRecord) (c : Char) :
    dictGet (knownLetters hist) c = totalGreenYellow hist c := by
  unfold knownLetters
  rw [dictGet_foldl_records, dictGet_nil]
  omega

lemma keys_map_incr (d : List (Char × Nat)) (x : Char) :
    (d.map (fun p => if p.1 = x then (p.1, p.2 + 1) else p)).map Prod.fst =
      d.map Prod.fst := by
  induction d with
  | nil => rfl
  | cons p d ih =>
    obtain ⟨k, v⟩ := p
    by_cases hk : k = x <;> simp [hk, ih]

lemma keys_dictIncr_nodup (d : List (Char × Nat)) (x : Char)
    (h : (d.map Prod.fst).Nodup) : ((dictIncr d x).map Prod.fst).Nodup := by
  unfold dictIncr
  by_cases hany : d.any (fun p => decide (p.1 = x)) = true
  · rw [if_pos hany, keys_map_incr]
    exact h
  · rw [if_neg hany, List.map_append]
    have hx : x ∉ d.map Prod.fst := by
      intro hmem
      apply hany
      rcases List.mem_map.mp hmem with ⟨p, hp, hfst⟩
      exact List.any_eq_true.mpr ⟨p, hp, by simp [hfst]⟩
    simp only [List.map_cons, List.map_nil]
    rw [List.nodup_append]
    refine ⟨h, List.nodup_singleton x, ?_⟩
    intro a ha hb
    simp only [List.mem_singleton] at hb
    exact hx (hb ▸ ha)

lemma addKnown_keys_nodup (d : List (Char × Nat)) (p : Char × Color)
    (h : (d.map Prod.fst).Nodup) : ((addKnown d p).map Prod.fst).Nodup := by
  unfold addKnown
  split
  · exact keys_dictIncr_nodup d p.1 h
  · exact h

lemma foldl_addKnown_keys_nodup (l : List (Char × Color)) :
    ∀ (d : List (Char × Nat)), (d.map Prod.fst).Nodup →
      ((l.foldl addKnown d).map Prod.fst).Nodup := by
  induction l with
  | nil => intro d h; exact h
  | cons p l ih =>
    intro d h
    simp only [List.foldl_cons]
    exact ih _ (addKnown_keys_nodup d p h)

lemma knownLetters_keys_nodup (hist : List GuessRecord) :
    ((knownLetters hist).map Prod.fst).Nodup := by
  unfold knownLetters
  have hgen : ∀ (d : List (Char × Nat)), (d.map Prod.fst).Nodup →
      ((hist.foldl (fun d r => (recordPairs r).foldl addKnown d) d).map Prod.fst).Nodup := by
    induction hist with
    | nil => intro d h; exact h
    | cons r hist ih =>
      intro d h
      simp only [List.foldl_cons]
      exact ih _ (foldl_addKnown_keys_nodup (recordPairs r) d h)
  exact hgen [] (by simp)

lemma dictGet_of_mem_nodup :
    ∀ {d : List (Char × Nat)}, (d.map Prod.fst).Nodup →
      ∀ {c : Char} {n : Nat}, (c, n) ∈ d → dictGet d c = n := by
  intro d
  induction d with
  | nil => intro _ c n hm; cases hm
  | cons p d ih =>
    intro hnd c n hm
    obtain ⟨k, v⟩ := p
    rw [dictGet_cons]
    simp only [List.map_cons, List.nodup_cons] at hnd
    rcases List.mem_cons.mp hm with heq | hmem
    · have hk := (Prod.mk.inj heq).1
      have hv := (Prod.mk.inj heq).2
      rw [if_pos hk.symm]
      exact hv.symm
    · by_cases hk : k = c
      · exfalso
        apply hnd.1
        subst hk
        exact List.mem_map.mpr ⟨(k, n), hmem, rfl⟩
      · rw [if_neg hk]
        exact ih hnd.2 hmem

lemma find?_split {α : Type} (p : α → Bool) :
    ∀ {l : List α} {a : α}, l.find? p = some a →
      ∃ pre post, l = pre ++ a :: post ∧ (∀ x ∈ pre, p x = false) ∧ p a = true := by
  intro l
  induction l with
  | nil => intro a h; cases h
  | cons x l ih =>
    intro a h
    rw [List.find?_cons] at h
    cases hp : p x
    · rw [hp] at h
      simp only at h
      obtain ⟨pre, post, hl, hpre, hpa⟩ := ih h
      refine ⟨x :: pre, post, by simp [hl], ?_, hpa⟩
      intro y hy
      rcases List.mem_cons.mp hy with rfl | hy2
      · exact hp
      · exact hpre y hy2
    · rw [hp] at h
      simp only [Option.some.injEq] at h
      subst h
      exact ⟨[], l, rfl, by simp, hp⟩

lemma dictGet_mem (d : List (Char × Nat)) (c : Char) (h : dictGet d c ≠ 0) :
    (c, dictGet d c) ∈ d := by
  cases hf : d.find? (fun p => decide (p.1 = c)) with
  | none =>
    exfalso
    apply h
    unfold dictGet
    rw [hf]
  | some p =>
    have hval : dictGet d c = p.2 := by
      unfold dictGet
      rw [hf]
    rw [hval]
    have hp := List.find?_some hf
    simp only [decide_eq_true_eq] at hp
    have hmem := List.mem_of_find?_eq_some hf
    obtain ⟨p1, p2⟩ := p
    simp only at hp ⊢
    subst hp
    exact hmem

/-- C2: hard mode builds the required minimum count of each letter by
summing every green or yellow verdict across all prior records of the
session (counts accumulate across records); the candidate is accepted
exactly when it contains at least the required count of every letter;
otherwise the first violated letter of the accumulated dict (all entries
before it being satisfied) is the one reported, and the route rejects the
guess with the hard-mode error naming exactly that letter. -/
theorem hardMode_required_counts_spec (hist : List GuessRecord) (guess : List Char) :
    (hardModeViolation hist guess = none ↔
      ∀ c, totalGreenYellow hist c ≤ countOcc guess c) ∧
    (∀ c, hardModeViolation hist guess = some c →
      countOcc guess c < totalGreenYellow hist c ∧
      ∃ pre post, knownLetters hist = pre ++ (c, totalGreenYellow hist c) :: post ∧
        ∀ q ∈ pre, totalGreenYellow hist q.1 ≤ countOcc guess q.1) ∧
    (∀ (today : List Char) (aw : List (List Char)) (ut tg : List Char) (s : Session)
        (graw : List Char) (c : Char),
      graw.map toUpperChar = guess → s.guesses = hist → s.game_over = false →
      s.hard_mode = true → guess.length = 5 → guess ∈ aw →
      hardModeViolation hist guess = some c →
      guessRoute true today aw ut tg s graw = .err (hardModeMsg c) s) := by
  refine ⟨⟨?_, ?_⟩, ?_, ?_⟩
  · intro hnone c
    cases hf : (knownLetters hist).find?
        (fun p => decide (dictGet (letterCounts guess) p.1 < p.2)) with
    | some p =>
      unfold hardModeViolation at hnone
      rw [hf] at hnone
      cases hnone
    | none =>
      by_cases h0 : totalGreenYellow hist c = 0
      · omega
      · have hmem := dictGet_mem (knownLetters hist) c
          (by rw [dictGet_knownLetters]; exact h0)
        have hnp := List.find?_eq_none.mp hf _ hmem
        simp only [decide_eq_true_eq, dictGet_letterCounts, dictGet_knownLetters] at hnp
        omega
  · intro hall
    unfold hardModeViolation
    have hf : (knownLetters hist).find?
        (fun p => decide (dictGet (letterCounts guess) p.1 < p.2)) = none := by
      rw [List.find?_eq_none]
      intro p hp
      obtain ⟨c1, n1⟩ := p
      have hd : dictGet (knownLetters hist) c1 = n1 :=
        dictGet_of_mem_nodup (knownLetters_keys_nodup hist) hp
      rw [dictGet_knownLetters] at hd
      have := hall c1
      simp only [decide_eq_true_eq, dictGet_letterCounts]
      omega
    rw [hf]
    rfl
  · intro c hsome
    unfold hardModeViolation at hsome
    cases hf : (knownLetters hist).find?
        (fun p => decide (dictGet (letterCounts guess) p.1 < p.2)) with
    | none => rw [hf] at hsome; cases hsome
    | some p =>
      rw [hf] at hsome
      simp only [Option.map_some', Option.some.injEq] at hsome
      obtain ⟨pre, post, hsplit, hpre, hpa⟩ := find?_split _ hf
      obtain ⟨c1, n1⟩ := p
      simp only at hsome
      subst hsome
      have hmem : (c1, n1) ∈ knownLetters hist := by
        rw [hsplit]
        exact List.mem_append_right pre (List.mem_cons_self _ _)
      have hd : dictGet (knownLetters hist) c1 = n1 :=
        dictGet_of_mem_nodup (knownLetters_keys_nodup hist) hmem
      rw [dictGet_knownLetters] at hd
      simp only [decide_eq_true_eq, dictGet_letterCounts] at hpa
      constructor
      · omega
      · refine ⟨pre, post, by rw [hsplit, hd], ?_⟩
        intro q hq
        obtain ⟨qc, qn⟩ := q
        have hqmem : (qc, qn) ∈ knownLetters hist := by
          rw [hsplit]
          exact List.mem_append_left _ hq
        have hqd : dictGet (knownLetters hist) qc = qn :=
          dictGet_of_mem_nodup (knownLetters_keys_nodup hist) hqmem
        rw [dictGet_knownLetters] at hqd
        have hqp := hpre _ hq
        simp only [decide_eq_false_iff_not, dictGet_letterCounts] at hqp
        simp only
        omega
  · intro today aw ut tg s graw c hsub hgs hgo hhm hlen hmem hviol
    simp only [guessRoute, hsub, hgs, hgo, hhm, hviol, hlen, hmem]
    simp

/-! ### The session state machine at terminal states -/

lemma guessRoute_terminal_err (dbOk : Bool) (today : List Char) (aw : List (List Char))
    (ut tg : List Char) (s : Session) (graw : List Char)
    (hgo : s.game_over = true) :
    ∃ m, guessRoute dbOk today aw ut tg s graw = .err m s ∧
      (m = dbErrorMsg ∨ m = alreadyPlayedMsg ∨ m = gameOverFinishedMsg) := by
  cases dbOk with
  | false => exact ⟨dbErrorMsg, by simp [guessRoute], Or.inl rfl⟩
  | true =>
    by_cases hlp : s.last_played_date = some today
    · refine ⟨alreadyPlayedMsg, ?_, Or.inr (Or.inl rfl)⟩
      simp [guessRoute, hlp, hgo]
    · refine ⟨gameOverFinishedMsg, ?_, Or.inr (Or.inr rfl)⟩
      simp [guessRoute, hlp, hgo]

/-- C3: a guess submitted to a terminal (game_over) session with a working
database is rejected with one of the two fixed already-finished error
messages, and the returned session is the input session unchanged — no
verdict is computed and no record is appended to the guess history. -/
theorem terminal_guess_rejected (today : List Char) (aw : List (List Char))
    (ut tg : List Char) (s : Session) (graw : List Char)
    (hgo : s.game_over = true) :
    ∃ m, guessRoute true today aw ut tg s graw = .err m s ∧
      (m = alreadyPlayedMsg ∨ m = gameOverFinishedMsg) := by
  obtain ⟨m, hroute, hcase⟩ := guessRoute_terminal_err true today aw ut tg s graw hgo
  refine ⟨m, hroute, ?_⟩
  rcases hcase with hdb | h | h
  · exfalso
    rw [hdb] at hroute
    simp only [guessRoute] at hroute
    rw [if_neg (by simp)] at hroute
    by_cases hlp : s.last_played_date = some today
    · rw [if_pos ⟨hlp, hgo⟩] at hroute
      have := (GuessOutcome.err.inj hroute).1
      exact absurd this (by decide)
    · rw [if_neg (by simp [hlp])] at hroute
      rw [if_pos hgo] at hroute
      have := (GuessOutcome.err.inj hroute).1
      exact absurd this (by decide)
  · exact Or.inl h
  · exact Or.inr h

/-- C3 witness. -/
theorem terminal_guess_rejected_witness :
    ∃ m, guessRoute true ("2026-10-12".toList) [] guestType ("CRANE".toList)
        { guesses := [], game_over := true, hard_mode := false,
          last_played_date := none, share_text := none } ("TRACE".toList) =
        .err m
          { guesses := [], game_over := true, hard_mode := false,
            last_played_date := none, share_text := none } ∧
      (m = alreadyPlayedMsg ∨ m = gameOverFinishedMsg) :=
  terminal_guess_rejected ("2026-10-12".toList) [] guestType ("CRANE".toList)
    { guesses := [], game_over := true, hard_mode := false,
      last_played_date := none, share_text := none } ("TRACE".toList) (by decide)

/-! ### Hard-mode toggling -/

/-- C8 (amended): a toggle request is rejected (with the fixed
cannot-change error, session unchanged) exactly when the session's
last_played_date equals today; in every other state the hard-mode flag is
flipped and nothing else changes. -/
theorem toggle_hard_mode_spec (today : List Char) (s : Session) :
    (s.last_played_date = some today →
      toggle_hard_mode today s = .err cannotChangeMsg s) ∧
    (s.last_played_date ≠ some today →
      toggle_hard_mode today s = .ok { s with hard_mode := !s.hard_mode }) := by
  constructor
  · intro h
    simp [toggle_hard_mode, h]
  · intro h
    simp [toggle_hard_mode, h]

/-- C8 witness. -/
theorem toggle_hard_mode_spec_witness :
    toggle_hard_mode ("2026-10-12".toList)
        { guesses := [], game_over := false, hard_mode := false,
          last_played_date := none, share_text := none } =
      .ok { guesses := [], game_over := false, hard_mode := true,
            last_played_date := none, share_text := none } := by
  have h := (toggle_hard_mode_spec ("2026-10-12".toList)
    { guesses := [], game_over := false, hard_mode := false,
      last_played_date := none, share_text := none }).2 (by decide)
  simpa using h

/-- C8 counterexample to the claim as stated: the claim says the toggle is
rejected exactly when the session has recorded at least one guess today or
is finished. First part: a session reachable after a day rollover
(last_played_date is None) that holds one non-terminal guess made today is
NOT rejected — the flag flips. Second part: a fresh first-visit session
(index sets last_played_date to today before any guess) with an empty
history and no finished game IS rejected. -/
theorem toggle_hard_mode_counterexample :
    toggle_hard_mode ("2026-10-12".toList)
        { guesses := [{ guess := "CRANE".toList,
                        result := evaluateGuess ("CRANE".toList) ("MOUSE".toList) }],
          game_over := false, hard_mode := false,
          last_played_date := none, share_text := none } =
      .ok { guesses := [{ guess := "CRANE".toList,
                          result := evaluateGuess ("CRANE".toList) ("MOUSE".toList) }],
            game_over := false, hard_mode := true,
            last_played_date := none, share_text := none } ∧
    toggle_hard_mode ("2026-10-12".toList)
        { guesses := [], game_over := false, hard_mode := false,
          last_played_date := some ("2026-10-12".toList), share_text := none } =
      .err cannotChangeMsg
        { guesses := [], game_over := false, hard_mode := false,
          last_played_date := some ("2026-10-12".toList), share_text := none } := by
  exact ⟨by decide, by decide⟩

/-! ### Inversion of a successful guess submission -/

lemma guessRoute_ok_cases {dbOk : Bool} {today : List Char} {aw : List (List Char)}
    {ut tg : List Char} {s : Session} {graw : List Char}
    {resp : GuessResponse} {s2 : Session} {log : List OutcomeRecord}
    (h : guessRoute dbOk today aw ut tg s graw = .ok resp s2 log) :
    s.game_over = false ∧
    (graw.map toUpperChar).length = 5 ∧ (graw.map toUpperChar) ∈ aw ∧
    resp.guess = graw.map toUpperChar ∧
    resp.result = evaluateGuess (graw.map toUpperChar) tg ∧
    s2.guesses = s.guesses ++
      [{ guess := graw.map toUpperChar,
         result := evaluateGuess (graw.map toUpperChar) tg }] ∧
    resp.share_text = some (shareText today s2.guesses) ∧
    s2.share_text = some (shareText today s2.guesses) ∧
    s2.hard_mode = s.hard_mode ∧
    ((graw.map toUpperChar = tg ∧ resp.game_over = true ∧ s2.game_over = true ∧
        resp.message = some (winMsg s2.guesses.length) ∧
        s2.last_played_date = some today ∧
        log = (if ut ≠ guestType then [{ win := 1, guesses := s2.guesses.length }] else [])) ∨
     (¬graw.map toUpperChar = tg ∧ 6 ≤ s2.guesses.length ∧ resp.game_over = true ∧
        s2.game_over = true ∧ resp.message = some (loseMsg tg) ∧
        s2.last_played_date = some today ∧
        log = (if ut ≠ guestType then [{ win := 0, guesses := s2.guesses.length }] else [])) ∨
     (¬graw.map toUpperChar = tg ∧ s2.guesses.length < 6 ∧ resp.game_over = false ∧
        s2.game_over = false ∧ resp.message = none ∧
        s2.last_played_date = s.last_played_date ∧ log = [])) := by
  simp only [guessRoute] at h
  split at h
  · exact GuessOutcome.noConfusion h
  split at h
  · exact GuessOutcome.noConfusion h
  split at h
  · exact GuessOutcome.noConfusion h
  rename_i hdb hterm1 hterm2
  have hgo : s.game_over = false := by
    cases hg : s.game_over
    · rfl
    · exact absurd hg hterm2
  split at h
  · exact GuessOutcome.noConfusion h
  rename_i hvalid
  push_neg at hvalid
  obtain ⟨hlen, hmem⟩ := hvalid
  split at h
  · exact GuessOutcome.noConfusion h
  split at h
  · -- win branch
    rename_i hwin
    injection h with h1 h2 h3
    subst h1
    subst h2
    subst h3
    refine ⟨hgo, hlen, hmem, rfl, rfl, rfl, rfl, rfl, rfl, Or.inl ⟨hwin, rfl, rfl, rfl, rfl, rfl⟩⟩
  split at h
  · -- lose branch
    rename_i hwin hsix
    injection h with h1 h2 h3
    subst h1
    subst h2
    subst h3
    refine ⟨hgo, hlen, hmem, rfl, rfl, rfl, rfl, rfl, rfl,
      Or.inr (Or.inl ⟨hwin, ?_, rfl, rfl, rfl, rfl, rfl⟩)⟩
    simpa using hsix
  · -- in-progress branch
    rename_i hwin hsix
    injection h with h1 h2 h3
    subst h1
    subst h2
    subst h3
    refine ⟨hgo, hlen, hmem, rfl, rfl, rfl, rfl, rfl, rfl,
      Or.inr (Or.inr ⟨hwin, ?_, rfl, hgo, rfl, rfl, rfl⟩)⟩
    simp only [List.length_append, List.length_cons, List.length_nil] at hsix ⊢
    omega

/-! ### Character counting in messages and share strings -/

lemma digitChar_spec (n : Nat) :
    isUpperChar (Nat.digitChar n) = false ∧ ¬Nat.digitChar n = '\n' := by
  obtain _|_|_|_|_|_|_|_|_|_|_|_|_|_|_|_|n := n <;>
    first
      | decide
      | (unfold Nat.digitChar
         iterate 16 rw [if_neg (by omega)]
         decide)

lemma toDigitsCore_spec (base : Nat) :
    ∀ (fuel n : Nat) (acc : List Char),
      (∀ c ∈ acc, isUpperChar c = false ∧ ¬c = '\n') →
      ∀ c ∈ Nat.toDigitsCore base fuel n acc, isUpperChar c = false ∧ ¬c = '\n' := by
  intro fuel
  induction fuel with
  | zero => intro n acc hacc; exact hacc
  | succ fuel ih =>
    intro n acc hacc
    simp only [Nat.toDigitsCore]
    split
    · intro c hc
      rcases List.mem_cons.mp hc with rfl | hc2
      · exact digitChar_spec _
      · exact hacc c hc2
    · apply ih
      intro c hc
      rcases List.mem_cons.mp hc with rfl | hc2
      · exact digitChar_spec _
      · exact hacc c hc2

lemma repr_chars_spec (n : Nat) :
    ∀ c ∈ (Nat.repr n).toList, isUpperChar c = false ∧ ¬c = '\n' := by
  intro c hc
  have hrw : (Nat.repr n).toList = Nat.toDigits 10 n := rfl
  rw [hrw] at hc
  exact toDigitsCore_spec 10 (n + 1) n [] (by intro x hx; cases hx) c hc

lemma countUpper_append (a b : List Char) :
    countUpper (a ++ b) = countUpper a + countUpper b := by
  simp [countUpper, List.filter_append]

lemma countOcc_append (a b : List Char) (c : Char) :
    countOcc (a ++ b) c = countOcc a c + countOcc b c := by
  simp [countOcc, List.filter_append]

lemma countUpper_eq_zero_of_all {s : List Char}
    (h : ∀ c ∈ s, isUpperChar c = false) : countUpper s = 0 := by
  unfold countUpper
  rw [List.length_eq_zero, List.filter_eq_nil_iff]
  intro a ha
  simp [h a ha]

lemma countOcc_eq_zero_of_forall_ne {s : List Char} {c : Char}
    (h : ∀ x ∈ s, ¬x = c) : countOcc s c = 0 := by
  unfold countOcc
  rw [List.length_eq_zero, List.filter_eq_nil_iff]
  intro a ha
  simp [h a ha]

lemma countUpper_repr (n : Nat) : countUpper (Nat.repr n).toList = 0 :=
  countUpper_eq_zero_of_all (fun c hc => (repr_chars_spec n c hc).1)

lemma countOcc_repr_newline (n : Nat) : countOcc (Nat.repr n).toList '\n' = 0 :=
  countOcc_eq_zero_of_forall_ne (fun c hc => (repr_chars_spec n c hc).2)

lemma glyph_not_upper (col : Color) : isUpperChar (glyphOf col) = false := by
  cases col <;> decide

lemma glyph_ne_newline (col : Color) : ¬glyphOf col = '\n' := by
  cases col <;> decide

lemma countUpper_glyphLine (g : GuessRecord) : countUpper (glyphLine g) = 0 := by
  unfold glyphLine
  rw [countUpper_append]
  have h1 : countUpper (g.result.map glyphOf) = 0 :=
    countUpper_eq_zero_of_all (by
      intro c hc
      rcases List.mem_map.mp hc with ⟨col, _, rfl⟩
      exact glyph_not_upper col)
  have h2 : countUpper ['\n'] = 0 := by decide
  omega

lemma countOcc_glyphLine_newline (g : GuessRecord) : countOcc (glyphLine g) '\n' = 1 := by
  unfold glyphLine
  rw [countOcc_append]
  have h1 : countOcc (g.result.map glyphOf) '\n' = 0 :=
    countOcc_eq_zero_of_forall_ne (by
      intro x hx
      rcases List.mem_map.mp hx with ⟨col, _, rfl⟩
      exact glyph_ne_newline col)
  have h2 : countOcc ['\n'] '\n' = 1 := by decide
  omega

lemma countUpper_glyphs_flatten (gs : List GuessRecord) :
    countUpper ((gs.map glyphLine).flatten) = 0 := by
  induction gs with
  | nil => rfl
  | cons g gs ih =>
    simp only [List.map_cons, List.flatten_cons]
    rw [countUpper_append, countUpper_glyphLine, ih]

lemma countOcc_glyphs_flatten_newline (gs : List GuessRecord) :
    countOcc ((gs.map glyphLine).flatten) '\n' = gs.length := by
  induction gs with
  | nil => rfl
  | cons g gs ih =>
    simp only [List.map_cons, List.flatten_cons, List.length_cons]
    rw [countOcc_append, countOcc_glyphLine_newline, ih]
    omega

lemma countUpper_shareHeader (today : List Char) (n : Nat)
    (htoday : ∀ c ∈ today, isUpperChar c = false) :
    countUpper (shareHeader today n) = 1 := by
  unfold shareHeader
  rw [countUpper_append, countUpper_append, countUpper_append, countUpper_append,
    countUpper_repr, countUpper_eq_zero_of_all htoday]
  have h1 : countUpper "Wurdle ".toList = 1 := by decide
  have h2 : countUpper [' '] = 0 := by decide
  have h3 : countUpper "/6".toList = 0 := by decide
  omega

lemma countOcc_shareHeader_newline (today : List Char) (n : Nat)
    (htoday : ∀ c ∈ today, ¬c = '\n') :
    countOcc (shareHeader today n) '\n' = 0 := by
  unfold shareHeader
  rw [countOcc_append, countOcc_append, countOcc_append, countOcc_append,
    countOcc_repr_newline, countOcc_eq_zero_of_forall_ne htoday]
  have h1 : countOcc "Wurdle ".toList '\n' = 0 := by decide
  have h2 : countOcc [' '] '\n' = 0 := by decide
  have h3 : countOcc "/6".toList '\n' = 0 := by decide
  omega

lemma countUpper_shareText (today : List Char) (gs : List GuessRecord)
    (htoday : ∀ c ∈ today, isUpperChar c = false) :
    countUpper (shareText today gs) = 1 := by
  unfold shareText
  rw [countUpper_append, countUpper_append, countUpper_shareHeader today _ htoday,
    countUpper_glyphs_flatten]
  have h1 : countUpper "\n".toList = 0 := by decide
  omega

lemma countOcc_shareText_newline (today : List Char) (gs : List GuessRecord)
    (htoday : ∀ c ∈ today, ¬c = '\n') :
    countOcc (shareText today gs) '\n' = gs.length + 1 := by
  unfold shareText
  rw [countOcc_append, countOcc_append, countOcc_shareHeader_newline today _ htoday,
    countOcc_glyphs_flatten_newline]
  have h1 : countOcc "\n".toList '\n' = 1 := by decide
  omega

/-! ### The secret never fits inside low-uppercase strings -/

lemma occursIn_countUpper_le {w s : List Char} (h : occursIn w s) :
    countUpper w ≤ countUpper s := by
  obtain ⟨a, b, rfl⟩ := h
  rw [countUpper_append, countUpper_append]
  omega

lemma countUpper_of_upper5 {w : List Char} (h5 : w.length = 5)
    (hu : w.all isUpperChar = true) : countUpper w = 5 := by
  unfold countUpper
  have hself : w.filter isUpperChar = w :=
    List.filter_eq_self.mpr (fun a ha => (List.all_eq_true.mp hu) a ha)
  rw [hself, h5]

lemma not_occursIn_of_countUpper_lt {tg s : List Char} (h5 : tg.length = 5)
    (hu : tg.all isUpperChar = true) (hs : countUpper s < 5) : ¬occursIn tg s := by
  intro h
  have hle := occursIn_countUpper_le h
  rw [countUpper_of_upper5 h5 hu] at hle
  omega

lemma not_occursIn_of_length_eq_ne {tg g : List Char} (h5 : tg.length = 5)
    (hg : g.length = 5) (hne : ¬g = tg) : ¬occursIn tg g := by
  rintro ⟨a, b, heq⟩
  have hl : g.length = a.length + (tg.length + b.length) := by
    rw [heq]
    simp [List.length_append]
  have ha : a = [] := List.length_eq_zero.mp (by omega)
  have hb : b = [] := List.length_eq_zero.mp (by omega)
  subst ha
  subst hb
  simp only [List.nil_append, List.append_nil] at heq
  exact hne heq

lemma countUpper_singleton_le (c : Char) : countUpper [c] ≤ 1 := by
  unfold countUpper
  by_cases h : isUpperChar c = true <;> simp [List.filter, h]

lemma countUpper_hardModeMsg (c : Char) : countUpper (hardModeMsg c) < 5 := by
  unfold hardModeMsg
  rw [countUpper_append, countUpper_append]
  have h1 : countUpper "Hard Mode: Must use all known letters (".toList = 3 := by decide
  have h2 : countUpper ").".toList = 0 := by decide
  have h3 := countUpper_singleton_le c
  omega

lemma guessRoute_err_msgs {dbOk : Bool} {today : List Char} {aw : List (List Char)}
    {ut tg : List Char} {s : Session} {graw : List Char} {m : List Char} {s2 : Session}
    (h : guessRoute dbOk today aw ut tg s graw = .err m s2) :
    m = dbErrorMsg ∨ m = alreadyPlayedMsg ∨ m = gameOverFinishedMsg ∨
      m = invalidWordMsg ∨ ∃ c, m = hardModeMsg c := by
  simp only [guessRoute] at h
  split at h
  · exact Or.inl (GuessOutcome.err.inj h).1.symm
  split at h
  · exact Or.inr (Or.inl (GuessOutcome.err.inj h).1.symm)
  split at h
  · exact Or.inr (Or.inr (Or.inl (GuessOutcome.err.inj h).1.symm))
  split at h
  · exact Or.inr (Or.inr (Or.inr (Or.inl (GuessOutcome.err.inj h).1.symm)))
  split at h
  · rename_i letter hsome
    exact Or.inr (Or.inr (Or.inr (Or.inr ⟨letter, (GuessOutcome.err.inj h).1.symm⟩)))
  split at h
  · exact GuessOutcome.noConfusion h
  split at h
  · exact GuessOutcome.noConfusion h
  · exact GuessOutcome.noConfusion h

/-- C9: the secret of the day (a 5-letter uppercase word) never occurs as
a substring of any string of a guess-route response that leaves the
session non-terminal: not in any error message, and in a successful
non-game-over response not in the echoed guess, the (absent) message, the
share string, or the color names of the verdict array. -/
theorem secret_not_in_nonterminal_responses (dbOk : Bool) (today : List Char)
    (aw : List (List Char)) (ut tg : List Char) (s : Session) (graw : List Char)
    (h5 : tg.length = 5) (hu : tg.all isUpperChar = true)
    (htoday : ∀ c ∈ today, isUpperChar c = false) :
    (∀ m s2, guessRoute dbOk today aw ut tg s graw = .err m s2 → ¬occursIn tg m) ∧
    (∀ resp s2 log, guessRoute dbOk today aw ut tg s graw = .ok resp s2 log →
      resp.game_over = false →
      ¬occursIn tg resp.guess ∧ resp.message = none ∧
      (∀ st, resp.share_text = some st → ¬occursIn tg st) ∧
      (∀ cs ∈ resp.result.map colorStr, ¬occursIn tg cs)) := by
  constructor
  · intro m s2 hm
    rcases guessRoute_err_msgs hm with h | h | h | h | ⟨c, h⟩ <;> subst h
    · exact not_occursIn_of_countUpper_lt h5 hu (by decide)
    · exact not_occursIn_of_countUpper_lt h5 hu (by decide)
    · exact not_occursIn_of_countUpper_lt h5 hu (by decide)
    · exact not_occursIn_of_countUpper_lt h5 hu (by decide)
    · exact not_occursIn_of_countUpper_lt h5 hu (countUpper_hardModeMsg c)
  · intro resp s2 log hok hngo
    obtain ⟨hgo, hlen, hmem, hg, hr, hgs, hst, hst2, hhm, hbr⟩ := guessRoute_ok_cases hok
    rcases hbr with ⟨hwin, hrgo, _⟩ | ⟨hwin, hsix, hrgo, _⟩ | ⟨hwin, hlt, hrgo, hsgo, hmsg, _⟩
    · rw [hrgo] at hngo; cases hngo
    · rw [hrgo] at hngo; cases hngo
    · refine ⟨?_, hmsg, ?_, ?_⟩
      · rw [hg]
        exact not_occursIn_of_length_eq_ne h5 hlen hwin
      · intro st hstEq
        rw [hst] at hstEq
        have hsteq2 : st = shareText today s2.guesses := by
          exact (Option.some.inj hstEq.symm)
        subst hsteq2
        apply not_occursIn_of_countUpper_lt h5 hu
        rw [countUpper_shareText today _ htoday]
        omega
      · intro cs hcs
        rcases List.mem_map.mp hcs with ⟨col, _, rfl⟩
        apply not_occursIn_of_countUpper_lt h5 hu
        cases col <;> decide

/-- C9 witness. -/
theorem secret_not_in_nonterminal_responses_witness :
    ¬occursIn ("CRANE".toList) invalidWordMsg := by
  have h := (secret_not_in_nonterminal_responses true sampleToday [] guestType
    ("CRANE".toList) sampleSession0 ("XXXXX".toList) (by decide) (by decide) (by decide)).1
  exact h invalidWordMsg sampleSession0 (by decide)

/-- C7 (amended): every successful guess response carries the share string
of the updated history; that string is the newline-free header line FIRST
(naming the date and the guesses-used/6 ratio), then one glyph line per
guess in submission order, hence exactly guessCount + 1
newline-terminated lines. The claimed order (glyph lines before the
header) is refuted by the counterexample. -/
theorem share_text_structure (dbOk : Bool) (today : List Char) (aw : List (List Char))
    (ut tg : List Char) (s : Session) (graw : List Char)
    (resp : GuessResponse) (s2 : Session) (log : List OutcomeRecord)
    (h : guessRoute dbOk today aw ut tg s graw = .ok resp s2 log)
    (htoday : ∀ c ∈ today, ¬c = '\n') :
    resp.share_text = some (shareText today s2.guesses) ∧
    (∃ rec, s2.guesses = s.guesses ++ [rec]) ∧
    shareText today s2.guesses =
      shareHeader today s2.guesses.length ++ '\n' :: ((s2.guesses.map glyphLine).flatten) ∧
    countOcc (shareHeader today s2.guesses.length) '\n' = 0 ∧
    countOcc (shareText today s2.guesses) '\n' = s2.guesses.length + 1 := by
  obtain ⟨hgo, hlen, hmem, hg, hr, hgs, hst, _⟩ := guessRoute_ok_cases h
  refine ⟨hst, ⟨_, hgs⟩, ?_, countOcc_shareHeader_newline today _ htoday,
    countOcc_shareText_newline today _ htoday⟩
  unfold shareText
  rw [List.append_assoc]
  rfl

/-- C7 witness. -/
theorem share_text_structure_witness :
    countOcc (shareText sampleToday sampleWinSession.guesses) '\n' =
      sampleWinSession.guesses.length + 1 :=
  (share_text_structure true sampleToday [("CRANE".toList)] guestType ("CRANE".toList)
    sampleSession0 ("CRANE".toList) sampleWinResp sampleWinSession []
    (by decide) (by decide)).2.2.2.2

/-- C7 counterexample to the claim as stated: the claim puts the glyph
lines first and the header line last, but the code emits the header line
first; at a concrete one-guess session the two strings differ. -/
theorem share_text_header_first_counterexample :
    shareText sampleToday [sampleRec] ≠ claimShareText sampleToday [sampleRec] := by
  decide

/-- C10: every accepted guess — one that passes the state, length,
word-list and hard-mode checks — produces a success response whose
share_text is non-null and is the share string regenerated from the full
updated history (header plus one glyph line per guess so far), also when
the game is not over. -/
theorem accepted_guess_share_text_nonnull (today : List Char) (aw : List (List Char))
    (ut tg : List Char) (s : Session) (graw : List Char)
    (hgo : s.game_over = false)
    (hlen : (graw.map toUpperChar).length = 5)
    (hmem : (graw.map toUpperChar) ∈ aw)
    (hhm : s.hard_mode = true → hardModeViolation s.guesses (graw.map toUpperChar) = none) :
    ∃ resp s2 log, guessRoute true today aw ut tg s graw = .ok resp s2 log ∧
      resp.share_text = some (shareText today (s.guesses ++
        [{ guess := graw.map toUpperChar,
           result := evaluateGuess (graw.map toUpperChar) tg }])) ∧
      resp.share_text ≠ none := by
  have hv : (if s.hard_mode then hardModeViolation s.guesses (graw.map toUpperChar)
      else none) = none := by
    cases hhmv : s.hard_mode
    · simp
    · simpa using hhm hhmv
  simp only [guessRoute, hgo, hlen, hmem, hv]
  simp only [if_neg (by simp : ¬(true = false))]
  rw [if_neg (by simp : ¬(s.last_played_date = some today ∧ false = true))]
  rw [if_neg (by simp : ¬(false = true))]
  rw [if_neg (by simp : ¬((5 : Nat) ≠ 5 ∨ ¬True))]
  split
  · exact ⟨_, _, _, rfl, rfl, by simp⟩
  · split
    · exact ⟨_, _, _, rfl, rfl, by simp⟩
    · exact ⟨_, _, _, rfl, rfl, by simp⟩

/-- C10 witness. -/
theorem accepted_guess_share_text_nonnull_witness :
    ∃ resp s2 log, guessRoute true sampleToday [("TRACE".toList)] guestType
        ("CRANE".toList) sampleSession0 ("TRACE".toList) = .ok resp s2 log ∧
      resp.share_text = some (shareText sampleToday (sampleSession0.guesses ++
        [{ guess := ("TRACE".toList).map toUpperChar,
           result := evaluateGuess (("TRACE".toList).map toUpperChar) ("CRANE".toList) }])) ∧
      resp.share_text ≠ none :=
  accepted_guess_share_text_nonnull sampleToday [("TRACE".toList)] guestType
    ("CRANE".toList) sampleSession0 ("TRACE".toList)
    (by decide) (by decide) (by decide) (fun hcontra => absurd hcontra (by decide))

/-- C5 (amended): a successful guess writes outcome records as follows —
none while the game is not over; on the terminal transition exactly one
record carrying the win flag and the guess count when the player is not a
Guest, and none for a Guest; and the terminal session rejects every later
guess with an error, so the write is never repeated for the same finished
session. -/
theorem outcome_log_write_spec (dbOk : Bool) (today : List Char) (aw : List (List Char))
    (ut tg : List Char) (s : Session) (graw : List Char)
    (resp : GuessResponse) (s2 : Session) (log : List OutcomeRecord)
    (h : guessRoute dbOk today aw ut tg s graw = .ok resp s2 log) :
    (resp.game_over = false → log = []) ∧
    (resp.game_over = true → ¬ut = guestType →
      log = [{ win := (if resp.guess = tg then 1 else 0),
               guesses := s2.guesses.length }]) ∧
    (resp.game_over = true → ut = guestType → log = []) ∧
    (resp.game_over = true → ∀ graw2, ∃ m,
      guessRoute dbOk today aw ut tg s2 graw2 = .err m s2) := by
  obtain ⟨hgo, hlen, hmem, hg, hr, hgs, hst, hst2, hhm, hbr⟩ := guessRoute_ok_cases h
  rcases hbr with ⟨hwin, hrgo, hsgo, hmsg, hlpd, hlog⟩ |
    ⟨hwin, hsix, hrgo, hsgo, hmsg, hlpd, hlog⟩ |
    ⟨hwin, hlt, hrgo, hsgo, hmsg, hlpd, hlog⟩
  · refine ⟨?_, ?_, ?_, ?_⟩
    · intro hfalse; rw [hrgo] at hfalse; cases hfalse
    · intro _ hut
      rw [hlog, if_pos hut]
      rw [hg]
      simp [hwin]
    · intro _ hut
      rw [hlog, if_neg (by simp [hut])]
    · intro _ graw2
      obtain ⟨m, hm, _⟩ := guessRoute_terminal_err dbOk today aw ut tg s2 graw2 hsgo
      exact ⟨m, hm⟩
  · refine ⟨?_, ?_, ?_, ?_⟩
    · intro hfalse; rw [hrgo] at hfalse; cases hfalse
    · intro _ hut
      rw [hlog, if_pos hut]
      rw [hg]
      simp [hwin]
    · intro _ hut
      rw [hlog, if_neg (by simp [hut])]
    · intro _ graw2
      obtain ⟨m, hm, _⟩ := guessRoute_terminal_err dbOk today aw ut tg s2 graw2 hsgo
      exact ⟨m, hm⟩
  · refine ⟨fun _ => hlog, ?_, ?_, ?_⟩
    · intro htrue; rw [hrgo] at htrue; cases htrue
    · intro htrue; rw [hrgo] at htrue; cases htrue
    · intro htrue; rw [hrgo] at htrue; cases htrue

/-- C5 witness: a registered (Member) player winning on the first guess
produces exactly one outcome record (win flag 1, one guess). -/
theorem outcome_log_write_spec_witness :
    ([{ win := 1, guesses := 1 }] : List OutcomeRecord) =
      [{ win := (if sampleWinResp.guess = "CRANE".toList then 1 else 0),
         guesses := sampleWinSession.guesses.length }] :=
  (outcome_log_write_spec true sampleToday [("CRANE".toList)] ("Member".toList)
    ("CRANE".toList) sampleSession0 ("CRANE".toList) sampleWinResp sampleWinSession
    [{ win := 1, guesses := 1 }] (by decide)).2.1 (by decide) (by decide)

/-- C5 counterexample to the claim as stated: a Guest session reaching the
terminal Won state writes NO outcome record (the code skips the game_logs
insert for Guest users), where the claim demands exactly one record on
every terminal transition. -/
theorem guest_terminal_writes_no_outcome :
    outcomeGameOver (guessRoute true sampleToday [("CRANE".toList)] guestType
      ("CRANE".toList) sampleSession0 ("CRANE".toList)) = true ∧
    outcomeLog (guessRoute true sampleToday [("CRANE".toList)] guestType
      ("CRANE".toList) sampleSession0 ("CRANE".toList)) = some [] := by
  exact ⟨by decide, by decide⟩

/-- C4: evidence of the daily-word first-access race. Sequentially, a
second call returns the pinned word (last conjunct). But when two first
calls race — both SELECTs see the empty table, client A pins APPLE, then
client B's INSERT hits the primary-key violation and the exception
handler returns a fresh random word (CLOUD) — the two calls return
different words for the same (date, word-list) pair. -/
theorem daily_word_race_divergence :
    (get_daily_word [] sampleToday ("words.txt".toList)
        ("APPLE".toList) ("DREAM".toList)).1 = "APPLE".toList ∧
    (get_daily_word_at []
        (get_daily_word [] sampleToday ("words.txt".toList)
          ("APPLE".toList) ("DREAM".toList)).2
        sampleToday ("words.txt".toList) ("BREAD".toList) ("CLOUD".toList)).1 =
      "CLOUD".toList ∧
    ¬("APPLE".toList = ("CLOUD".toList : List Char)) ∧
    (get_daily_word
        (get_daily_word [] sampleToday ("words.txt".toList)
          ("APPLE".toList) ("DREAM".toList)).2
        sampleToday ("words.txt".toList) ("BREAD".toList) ("CLOUD".toList)).1 =
      "APPLE".toList := by
  exact ⟨by decide, by decide, by decide, by decide⟩

/-- C6: init_db drops the daily_word table on every startup
(DROP TABLE IF EXISTS daily_word at src/app.py:82), so a pinned
(date, word-list, word) record does not survive it — refuting the
never-deleted/append-only claim (and the code's own comment that these
tables are initialized only if they do not exist). -/
theorem init_db_drops_daily_word_pins :
    dwLookup [{ date := "2026-10-11".toList, word_list := "words.txt".toList,
                word := "APPLE".toList }] ("2026-10-11".toList) ("words.txt".toList)
      = some ("APPLE".toList) ∧
    dwLookup (init_db_daily_word
        [{ date := "2026-10-11".toList, word_list := "words.txt".toList,
           word := "APPLE".toList }]) ("2026-10-11".toList) ("words.txt".toList)
      = none := by
  exact ⟨by decide, rfl⟩

/-- C1 witness. -/
theorem evaluateGuess_verdict_spec_witness :
    (evaluateGuess ("ROOMY".toList) ("ROBOT".toList)).length = 5 :=
  (evaluateGuess_verdict_spec ("ROOMY".toList) ("ROBOT".toList) (by decide) (by decide)).1

/-- C2 witness: after TRACE against secret CRANE, the letter R is required
and MOIST is rejected for missing it. -/
theorem hardMode_required_counts_spec_witness :
    countOcc ("MOIST".toList) 'R' <
      totalGreenYellow
        [{ guess := "TRACE".toList,
           result := evaluateGuess ("TRACE".toList) ("CRANE".toList) }] 'R' :=
  ((hardMode_required_counts_spec
      [{ guess := "TRACE".toList, result := evaluateGuess ("TRACE".toList) ("CRANE".toList) }]
      ("MOIST".toList)).2.1 'R' (by decide)).1

end WordleGame
